import Mathlib

/-!
Verification of the DiffGrad optimizer (`src/optimizer/DiffGrad.py`).

The per-parameter tensors of the update rule are shallowly embedded as
functions `Fin n → ℝ` (one real per row of a rank-1 parameter), and the
stateful `update_step` method is embedded as a pure state-transformer.
Transcendental operations (`tf.exp`, `tf.sqrt`) are modelled by `Real.exp`
and `Real.sqrt`; machine floating point is idealized as real arithmetic.
Sparse gradients (`tf.IndexedSlices`) are modelled as an index list plus a
value list, and TensorFlow shape/broadcast failures are modelled by
`Option`: a step that would raise a shape error denotes `none`.
-/

open Real

/-- Hyperparameter record assembled by `DiffGrad.__init__`: `learning_rate`,
`weight_decay`, `beta_1`, `beta_2`, `epsilon`, `amsgrad`. -/
structure DGConfig where
  learning_rate : ℝ
  weight_decay : ℝ
  beta_1 : ℝ
  beta_2 : ℝ
  epsilon : ℝ
  amsgrad : Bool

/-- Per-parameter mutable state touched by `update_step`: the parameter
tensor itself (`variable`), momentum `m`, velocity `v`, previous gradient
`p`, and the AMSGrad running maximum `vhat` (allocated only when `amsgrad`
is set; carried here unconditionally and left untouched otherwise). -/
@[ext]
structure DGState (n : ℕ) where
  param : Fin n → ℝ
  m : Fin n → ℝ
  v : Fin n → ℝ
  p : Fin n → ℝ
  vhat : Fin n → ℝ

/-- The friction-coefficient formula `1. + tf.exp(-tf.abs(d))` applied to a
gradient difference `d` (lines `dfc = 1. + tf.exp(-tf.abs(p - ...))` of
`update_step`, both branches). -/
noncomputable def dfcFun (d : ℝ) : ℝ := 1 + Real.exp (-|d|)

/-- The dense branch of `DiffGrad.update_step`, together with the shared
prologue (bias-correction powers, `alpha`, decoupled weight decay) and
epilogue (AMSGrad maximum, final `assign_sub`).  `iter` is
`self.iterations` (so `local_step = iter + 1`), `useWd` is the result of
`self._use_weight_decay(variable)`, `g` the dense gradient. -/
noncomputable def update_step_dense (cfg : DGConfig) (iter : ℕ) (useWd : Bool)
    {n : ℕ} (g : Fin n → ℝ) (s : DGState n) : DGState n :=
  let lr := cfg.learning_rate
  let beta_1_power := cfg.beta_1 ^ (iter + 1)
  let beta_2_power := cfg.beta_2 ^ (iter + 1)
  let alpha := lr * Real.sqrt (1 - beta_2_power) / (1 - beta_1_power)
  -- Apply step weight decay: variable.assign_sub(variable * wd * lr)
  let param1 := fun i => if useWd then s.param i - s.param i * cfg.weight_decay * lr
                         else s.param i
  -- m.assign_add((gradient - m) * (1 - self.beta_1))
  let m1 := fun i => s.m i + (g i - s.m i) * (1 - cfg.beta_1)
  -- v.assign_add((tf.square(gradient) - v) * (1 - self.beta_2) + self.epsilon)
  let v1 := fun i => s.v i + ((g i) ^ 2 - s.v i) * (1 - cfg.beta_2) + cfg.epsilon
  -- dfc = 1. + tf.exp(-tf.abs(p - gradient)), read before p is overwritten
  let dfc := fun i => dfcFun (s.p i - g i)
  -- p.assign(gradient)
  let p1 := g
  -- if self.amsgrad: v_hat.assign(tf.maximum(v_hat, v)); v = v_hat
  let vhat1 := fun i => if cfg.amsgrad then max (s.vhat i) (v1 i) else s.vhat i
  let vUsed := fun i => if cfg.amsgrad then vhat1 i else v1 i
  -- variable.assign_sub((m * alpha) / (dfc * tf.sqrt(v)))
  let param2 := fun i => param1 i - m1 i * alpha / (dfc i * Real.sqrt (vUsed i))
  ⟨param2, m1, v1, p1, vhat1⟩

/-- Claim C2: for every dense update step at engine iteration `t`, the new
momentum is `m + (g - m)*(1 - beta_1)`, the new velocity is
`v + (g^2 - v)*(1 - beta_2) + epsilon` (epsilon folded into every step),
and the parameter (after the decoupled weight-decay shrinkage, when
enabled) is decremented by `new_m * alpha / (dfc * sqrt(v_used))`, with
`alpha = lr * sqrt(1 - beta_2^(t+1)) / (1 - beta_1^(t+1))`,
`dfc = 1 + exp(-|p_old - g|)` computed from the stale previous gradient,
and `v_used` the AMSGrad maximum when enabled, the new velocity otherwise;
the previous-gradient slot is then overwritten with `g`. -/
theorem dense_step_formulas (cfg : DGConfig) (t : ℕ) (useWd : Bool)
    {n : ℕ} (g : Fin n → ℝ) (s : DGState n) (i : Fin n) :
    (update_step_dense cfg t useWd g s).m i
        = s.m i + (g i - s.m i) * (1 - cfg.beta_1)
    ∧ (update_step_dense cfg t useWd g s).v i
        = s.v i + ((g i) ^ 2 - s.v i) * (1 - cfg.beta_2) + cfg.epsilon
    ∧ (update_step_dense cfg t useWd g s).p i = g i
    ∧ (update_step_dense cfg t useWd g s).param i
        = (if useWd then s.param i - s.param i * cfg.weight_decay * cfg.learning_rate
           else s.param i)
          - (s.m i + (g i - s.m i) * (1 - cfg.beta_1))
              * (cfg.learning_rate * Real.sqrt (1 - cfg.beta_2 ^ (t + 1))
                  / (1 - cfg.beta_1 ^ (t + 1)))
              / ((1 + Real.exp (-|s.p i - g i|))
                  * Real.sqrt (if cfg.amsgrad
                      then max (s.vhat i)
                          (s.v i + ((g i) ^ 2 - s.v i) * (1 - cfg.beta_2) + cfg.epsilon)
                      else s.v i + ((g i) ^ 2 - s.v i) * (1 - cfg.beta_2) + cfg.epsilon)) := by
  refine ⟨rfl, rfl, rfl, ?_⟩
  simp only [update_step_dense, dfcFun]
  cases cfg.amsgrad <;> simp

/-- Claim C3 (counterexample): at a zero gradient difference the friction
coefficient is exactly `2`, so it does not lie in `[1, 2)` as claimed. -/
theorem dfc_not_lt_two_at_zero : ¬ dfcFun 0 < 2 := by
  simp only [dfcFun, abs_zero, neg_zero, Real.exp_zero]
  norm_num

/-- Claim C3 (amended): for every finite gradient difference `d` the
friction coefficient `1 + exp(-|d|)` lies in `(1, 2]`: it is strictly
greater than `1`, at most `2`, equal to `2` exactly at `d = 0`, and it
tends to `1` as the difference grows without bound. -/
theorem dfc_bounds (d : ℝ) :
    1 < dfcFun d ∧ dfcFun d ≤ 2 ∧ (dfcFun d = 2 ↔ d = 0)
    ∧ Filter.Tendsto dfcFun Filter.atTop (nhds 1) := by
  refine ⟨?_, ?_, ?_, ?_⟩
  · have h := Real.exp_pos (-|d|)
    simp only [dfcFun]; linarith
  · have h : Real.exp (-|d|) ≤ 1 := Real.exp_le_one_iff.mpr (neg_nonpos.mpr (abs_nonneg d))
    simp only [dfcFun]; linarith
  · constructor
    · intro h
      have h2 : Real.exp (-|d|) = 1 := by simp only [dfcFun] at h; linarith
      have h3 : -|d| = 0 := Real.exp_injective (by rw [h2, Real.exp_zero])
      have h4 : |d| = 0 := by linarith
      exact abs_eq_zero.mp h4
    · intro h
      simp only [dfcFun, h, abs_zero, neg_zero, Real.exp_zero]
      norm_num
  · have h1 : Filter.Tendsto (fun d : ℝ => Real.exp (-d)) Filter.atTop (nhds 0) :=
      Real.tendsto_exp_neg_atTop_nhds_zero
    have h2 : (fun d : ℝ => Real.exp (-|d|)) =ᶠ[Filter.atTop] fun d => Real.exp (-d) := by
      filter_upwards [Filter.eventually_ge_atTop (0 : ℝ)] with x hx
      rw [abs_of_nonneg hx]
    have h3 : Filter.Tendsto (fun d : ℝ => Real.exp (-|d|)) Filter.atTop (nhds 0) :=
      Filter.Tendsto.congr' h2.symm h1
    have h4 : Filter.Tendsto dfcFun Filter.atTop (nhds (1 + 0)) := by
      exact Filter.Tendsto.const_add 1 h3
    simpa using h4

/-- Construction (`DiffGrad.__init__`): hyperparameters are stored and then
`weight_decay is None` raises a `ValueError` before construction completes.
`weight_decay` is received as `Option ℝ` so an explicit Python `None` is
`none`; an omitted argument takes the signature default, see
`weight_decay_default`. -/
def DiffGrad_init (learning_rate : ℝ) (weight_decay : Option ℝ)
    (beta_1 beta_2 epsilon : ℝ) (amsgrad : Bool) : Except String DGConfig :=
  match weight_decay with
  | none => Except.error
      "Missing value of `weight_decay` which is required and must be a float value."
  | some wd => Except.ok ⟨learning_rate, wd, beta_1, beta_2, epsilon, amsgrad⟩

/-- The Python signature default `weight_decay=0.004`: an omitted
`weight_decay` argument is bound to `0.004`, not to `None`. -/
noncomputable def weight_decay_default : Option ℝ := some 0.004

/-- Construction with every argument left at its signature default
(`learning_rate=0.001, weight_decay=0.004, beta_1=0.9, beta_2=0.999,
epsilon=1e-16, amsgrad=False`). -/
noncomputable def DiffGrad_init_defaults : Except String DGConfig :=
  DiffGrad_init 0.001 weight_decay_default 0.9 0.999 1e-16 false

/-- Claim C4 (counterexample): constructing the engine with the
`weight_decay` argument absent is not an error — the signature default
`0.004` is silently used and construction succeeds. -/
theorem init_defaults_no_error :
    DiffGrad_init_defaults = Except.ok ⟨0.001, 0.004, 0.9, 0.999, 1e-16, false⟩ := rfl

/-- Claim C4 (amended): passing an explicit null `weight_decay` is a fatal
configuration error raised immediately at construction time, before any
Build; any non-null value is accepted and stored.  An omitted argument is
not an error: it is replaced by the signature default `0.004`. -/
theorem init_weight_decay_check (lr b1 b2 eps : ℝ) (ams : Bool) :
    (∃ msg, DiffGrad_init lr none b1 b2 eps ams = Except.error msg)
    ∧ (∀ wd : ℝ, ∃ cfg, DiffGrad_init lr (some wd) b1 b2 eps ams = Except.ok cfg
        ∧ cfg.weight_decay = wd)
    ∧ ∃ cfg, DiffGrad_init_defaults = Except.ok cfg ∧ cfg.weight_decay = 0.004 := by
  refine ⟨⟨_, rfl⟩, fun wd => ⟨_, rfl, rfl⟩, ⟨_, rfl, rfl⟩⟩

/-- Engine-level state relevant to `build` and
`exclude_from_weight_decay`.  Parameter identities are opaque numerals
(Python object identity); each per-parameter slot tensor is modelled as a
list of reals (`add_variable_from_reference` creates a zeros tensor shaped
like the model variable).  The base optimizer's own bookkeeping
(`super().__init__`, `super().build`) lives outside this repository and is
not modelled; `_exclude_from_weight_decay`/`_exclude_from_weight_decay_names`
start `[]`, matching the `getattr(..., [])` reads. -/
structure EngineState where
  built : Bool
  momentums : List (List ℝ)
  velocities : List (List ℝ)
  prev_gradients : List (List ℝ)
  velocity_hats : List (List ℝ)
  exclude_vars : List ℕ
  exclude_names : List String

/-- `DiffGrad.build(var_list)`: guarded by the `_built` flag; on the first
call it allocates zero tensors `m`, `v`, `p` for every variable, and
`vhat` when `amsgrad` is set.  `var_shapes` gives each variable's row
count. -/
def build (amsgrad : Bool) (var_shapes : List ℕ) (e : EngineState) : EngineState :=
  if e.built then e
  else
    { e with
      built := true
      momentums := var_shapes.map fun k => List.replicate k 0
      velocities := var_shapes.map fun k => List.replicate k 0
      prev_gradients := var_shapes.map fun k => List.replicate k 0
      velocity_hats := if amsgrad then var_shapes.map fun k => List.replicate k 0
                       else e.velocity_hats }

/-- Claim C7: `build` is idempotent — once a first call has succeeded,
any later call (with the same or any other variable list) is a silent
no-op that leaves every per-parameter state tensor, and the rest of the
engine state, exactly as the first call left it. -/
theorem build_idempotent (amsgrad : Bool) (vs vs2 : List ℕ) (e : EngineState) :
    build amsgrad vs2 (build amsgrad vs e) = build amsgrad vs e := by
  unfold build
  cases hb : e.built <;> simp [hb]

/-- `DiffGrad.exclude_from_weight_decay(var_list, var_names)`: raises when
the optimizer is already built (before any mutation), otherwise replaces
both exclusion attributes (`var_list or []`, `var_names or []`).  The
result pairs the raised message (if any) with the post-call engine
state. -/
def exclude_from_weight_decay (e : EngineState) (var_list : Option (List ℕ))
    (var_names : Option (List String)) : Option String × EngineState :=
  if e.built then
    (some "`exclude_from_weight_decay()` can only be configued before the optimizer is built.",
      e)
  else
    (none, { e with
      exclude_vars := var_list.getD []
      exclude_names := var_names.getD [] })

/-- Claim C8: calling `exclude_from_weight_decay` after the engine is
built raises a usage error and leaves the whole engine state — in
particular both exclusion sets — unchanged. -/
theorem exclude_after_build_errors (e : EngineState) (h : e.built = true)
    (vl : Option (List ℕ)) (vn : Option (List String)) :
    (exclude_from_weight_decay e vl vn).1.isSome = true
    ∧ (exclude_from_weight_decay e vl vn).2 = e := by
  simp [exclude_from_weight_decay, h]

/-- A built engine with a nonempty exclusion configuration, used to
witness `exclude_after_build_errors`. -/
def builtEngineEx : EngineState := ⟨true, [], [], [], [], [7], ["beta"]⟩

/-- Witness for `exclude_after_build_errors` at a concrete built engine. -/
theorem exclude_after_build_errors_witness :
    (exclude_from_weight_decay builtEngineEx (some [1, 2]) (some ["kernel"])).1.isSome = true
    ∧ (exclude_from_weight_decay builtEngineEx (some [1, 2]) (some ["kernel"])).2
        = builtEngineEx :=
  exclude_after_build_errors builtEngineEx rfl (some [1, 2]) (some ["kernel"])

/-- Claim C10: every pre-build call to `exclude_from_weight_decay`
replaces both exclusion sets with exactly the supplied arguments,
regardless of what was configured before; an omitted (`None`) argument
resets its set to empty. -/
theorem exclude_replaces_previous (e : EngineState) (h : e.built = false)
    (vl : Option (List ℕ)) (vn : Option (List String)) :
    (exclude_from_weight_decay e vl vn).1 = none
    ∧ (exclude_from_weight_decay e vl vn).2.exclude_vars = vl.getD []
    ∧ (exclude_from_weight_decay e vl vn).2.exclude_names = vn.getD [] := by
  simp [exclude_from_weight_decay, h]

/-- An unbuilt engine that already holds a nonempty identity list and a
nonempty name-pattern list, used to witness `exclude_replaces_previous`. -/
def unbuiltEngineEx : EngineState := ⟨false, [], [], [], [], [3], ["gamma"]⟩

/-- Witness for `exclude_replaces_previous`: a second call supplying only
an identity list erases the previously configured name patterns, and the
previously configured identity `3` is replaced by the new list. -/
theorem exclude_replaces_previous_witness :
    (exclude_from_weight_decay unbuiltEngineEx (some [5]) none).1 = none
    ∧ (exclude_from_weight_decay unbuiltEngineEx (some [5]) none).2.exclude_vars
        = (some [5] : Option (List ℕ)).getD []
    ∧ (exclude_from_weight_decay unbuiltEngineEx (some [5]) none).2.exclude_names
        = (none : Option (List String)).getD [] :=
  exclude_replaces_previous unbuiltEngineEx rfl (some [5]) none

/-- Head-anchored literal match: does `pat` occur at the start of `s`?
(Helper for the literal-pattern reading of `re.search`.) -/
def matchHere : List Char → List Char → Bool
  | [], _ => true
  | _ :: _, [] => false
  | a :: pa, b :: sb => a == b && matchHere pa sb

/-- `re.search(pat, s)` for a literal (metacharacter-free) pattern:
scans every start position of `s` for an occurrence of `pat`.  This is
substring search — unlike `re.fullmatch`, a match anywhere in `s`
counts. -/
def reSearch (pat : List Char) : List Char → Bool
  | [] => matchHere pat []
  | b :: sb => matchHere pat (b :: sb) || reSearch pat sb

/-- `DiffGrad._use_weight_decay(variable)`: `False` when the variable's
identity is in `_exclude_from_weight_decay`, or some pattern in
`_exclude_from_weight_decay_names` matches the variable's name under
`re.search`; `True` otherwise.  Name patterns are modelled as literal
strings, for which `re.search` is substring search. -/
def use_weight_decay (e : EngineState) (var_id : ℕ) (var_name : String) : Bool :=
  if e.exclude_vars.contains var_id then false
  else if e.exclude_names.any (fun pat => reSearch pat.toList var_name.toList) then false
  else true

/-- `var.scatter_add(tf.IndexedSlices(vals, idxs))`: slice `j` adds
`vals[j]` into row `idxs[j]`; duplicate indices accumulate; untouched
rows keep their value. -/
def scatter_add {n : ℕ} (base : Fin n → ℝ) (idxs : List (Fin n)) (vals : List ℝ) :
    Fin n → ℝ :=
  fun i => base i + (((idxs.zip vals).filter fun sl => decide (sl.1 = i)).map Prod.snd).sum

/-- `var.scatter_update(tf.IndexedSlices(vals, idxs))`: row `idxs[j]` is
replaced by `vals[j]` (last slice wins on duplicates); untouched rows
keep their value. -/
def scatter_update {n : ℕ} (base : Fin n → ℝ) (idxs : List (Fin n)) (vals : List ℝ) :
    Fin n → ℝ :=
  fun i =>
    match (((idxs.zip vals).filter fun sl => decide (sl.1 = i)).map Prod.snd).getLast? with
    | some x => x
    | none => base i

/-- The sparse branch's `dfc = 1. + tf.exp(-tf.abs(p - gradient.values))`:
the full shape-`(n,)` tensor `p` minus the shape-`(k,)` slice values,
under TensorFlow broadcasting.  The subtraction is defined when the two
trailing dimensions agree or one of them is `1`; otherwise it raises a
shape error (`none`). -/
noncomputable def sparse_dfc {n : ℕ} (p : Fin n → ℝ) (vals : List ℝ) :
    Option (List ℝ) :=
  if vals.length = n then
    some (((List.finRange n).zip vals).map fun sl => dfcFun (p sl.1 - sl.2))
  else if vals.length = 1 then
    some ((List.finRange n).map fun i => dfcFun (p i - vals.headD 0))
  else if n = 1 then
    some (vals.map fun x => dfcFun (((List.finRange n).map p).headD 0 - x))
  else none

/-- The sparse branch of `DiffGrad.update_step` (gradient arrives as a
`tf.IndexedSlices` with row indices `idxs` and value rows `vals`),
including the shared prologue and epilogue.  A TensorFlow shape error —
a non-broadcastable `p - gradient.values`, or a final `assign_sub` whose
right-hand side does not match the variable's shape — is `none`. -/
noncomputable def update_step_sparse (cfg : DGConfig) (iter : ℕ) (useWd : Bool)
    {n : ℕ} (idxs : List (Fin n)) (vals : List ℝ) (s : DGState n) :
    Option (DGState n) :=
  let lr := cfg.learning_rate
  let beta_1_power := cfg.beta_1 ^ (iter + 1)
  let beta_2_power := cfg.beta_2 ^ (iter + 1)
  let alpha := lr * Real.sqrt (1 - beta_2_power) / (1 - beta_1_power)
  -- Apply step weight decay: variable.assign_sub(variable * wd * lr)
  let param1 := fun i => if useWd then s.param i - s.param i * cfg.weight_decay * lr
                         else s.param i
  -- m.assign_add(-m * (1 - beta_1)); m.scatter_add(values * (1 - beta_1), indices)
  let m1 := scatter_add (fun i => s.m i + -s.m i * (1 - cfg.beta_1)) idxs
      (vals.map fun x => x * (1 - cfg.beta_1))
  -- v.assign_add(-v * (1 - beta_2)); v.scatter_add(square(values)*(1-beta_2)+eps, indices)
  let v1 := scatter_add (fun i => s.v i + -s.v i * (1 - cfg.beta_2)) idxs
      (vals.map fun x => x ^ 2 * (1 - cfg.beta_2) + cfg.epsilon)
  -- dfc = 1. + tf.exp(-tf.abs(p - gradient.values)), before p is overwritten
  (sparse_dfc s.p vals).bind fun dfcl =>
    -- p.scatter_update(gradient.values, gradient.indices)
    let p1 := scatter_update s.p idxs vals
    -- if self.amsgrad: v_hat.assign(tf.maximum(v_hat, v)); v = v_hat
    let vhat1 := fun i => if cfg.amsgrad then max (s.vhat i) (v1 i) else s.vhat i
    let vUsed := fun i => if cfg.amsgrad then vhat1 i else v1 i
    -- variable.assign_sub((m * alpha) / (dfc * tf.sqrt(v)))
    if dfcl.length = n then
      some ⟨fun i => param1 i - m1 i * alpha / (dfcl.getD i.val 0 * Real.sqrt (vUsed i)),
        m1, v1, p1, vhat1⟩
    else none

/-- A gradient as received by `DiffGrad.update_step`: a dense tensor, or
a `tf.IndexedSlices` carrying values for a subset of rows. -/
inductive Grad (n : ℕ) where
  | dense (g : Fin n → ℝ)
  | sparse (indices : List (Fin n)) (values : List ℝ)

/-- `DiffGrad.update_step(gradient, variable)`: dispatches on
`isinstance(gradient, tf.IndexedSlices)`, with `useWd` the result of
`self._use_weight_decay(variable)` and `iter` the shared step counter
`self.iterations`. -/
noncomputable def update_step (cfg : DGConfig) (iter : ℕ) (useWd : Bool)
    {n : ℕ} (grad : Grad n) (s : DGState n) : Option (DGState n) :=
  match grad with
  | .dense g => some (update_step_dense cfg iter useWd g s)
  | .sparse idxs vals => update_step_sparse cfg iter useWd idxs vals s

/-- Filtering for an index that does not occur yields nothing. -/
lemma filter_decide_eq_nil {n : ℕ} {l : List (Fin n)} {i : Fin n} (h : i ∉ l) :
    l.filter (fun j => decide (j = i)) = [] := by
  refine List.filter_eq_nil_iff.mpr fun a ha => ?_
  simp only [decide_eq_true_eq]
  rintro rfl
  exact h ha

/-- Filtering a duplicate-free index list for a member keeps exactly it. -/
lemma filter_decide_eq_single {n : ℕ} {l : List (Fin n)} (hnd : l.Nodup) {i : Fin n}
    (hi : i ∈ l) : l.filter (fun j => decide (j = i)) = [i] := by
  induction l with
  | nil => cases hi
  | cons a t ih =>
    rcases List.nodup_cons.mp hnd with ⟨hat, hnt⟩
    rcases List.mem_cons.mp hi with rfl | hit
    · rw [List.filter_cons_of_pos (by simp), filter_decide_eq_nil hat]
    · have hai : a ≠ i := fun h => hat (h ▸ hit)
      rw [List.filter_cons_of_neg (by simp [hai])]
      exact ih hnt hit

/-- Zipping the index range with a mapped value list pairs each index with
its own value. -/
lemma zip_finRange_map {n : ℕ} {β : Type} (f : Fin n → β) :
    (List.finRange n).zip ((List.finRange n).map f)
      = (List.finRange n).map fun j => (j, f j) := by
  have h := List.zip_map' id f (List.finRange n)
  simpa using h

/-- `scatter_add` along the whole index range adds each value to its own
row. -/
lemma scatter_add_finRange_map {n : ℕ} (base f : Fin n → ℝ) (i : Fin n) :
    scatter_add base (List.finRange n) ((List.finRange n).map f) i = base i + f i := by
  unfold scatter_add
  have hc : ((fun sl : Fin n × ℝ => decide (sl.1 = i)) ∘ fun j => (j, f j))
      = fun j => decide (j = i) := rfl
  rw [zip_finRange_map, List.filter_map, hc,
    filter_decide_eq_single (List.nodup_finRange n) (List.mem_finRange i)]
  simp

/-- `scatter_update` along the whole index range replaces each row with
its own value. -/
lemma scatter_update_finRange_map {n : ℕ} (base f : Fin n → ℝ) (i : Fin n) :
    scatter_update base (List.finRange n) ((List.finRange n).map f) i = f i := by
  unfold scatter_update
  have hc : ((fun sl : Fin n × ℝ => decide (sl.1 = i)) ∘ fun j => (j, f j))
      = fun j => decide (j = i) := rfl
  rw [zip_finRange_map, List.filter_map, hc,
    filter_decide_eq_single (List.nodup_finRange n) (List.mem_finRange i)]
  rfl

/-- With full row coverage the broadcast in the sparse `dfc` is the
row-wise friction coefficient. -/
lemma sparse_dfc_finRange_map {n : ℕ} (p g : Fin n → ℝ) :
    sparse_dfc p ((List.finRange n).map g)
      = some ((List.finRange n).map fun j => dfcFun (p j - g j)) := by
  unfold sparse_dfc
  rw [if_pos (by simp), zip_finRange_map]
  simp

/-- Reading a mapped index-range list at a row index yields that row's
value. -/
lemma getD_map_finRange {n : ℕ} (f : Fin n → ℝ) (i : Fin n) :
    ((List.finRange n).map f).getD i.val 0 = f i := by
  have h : i.val < ((List.finRange n).map f).length := by simp [i.isLt]
  rw [List.getD_eq_getElem _ _ h]
  simp

/-- A concrete configuration: every constructor argument at its signature
default. -/
noncomputable def cfgEx : DGConfig := ⟨0.001, 0.004, 0.9, 0.999, 1e-16, false⟩

/-- A concrete five-row per-parameter state: parameter rows at `1`, all
optimizer slots at their zero initialization. -/
noncomputable def s5 : DGState 5 :=
  ⟨fun _ => 1, fun _ => 0, fun _ => 0, fun _ => 0, fun _ => 0⟩

/-- Claim C1: a genuinely sparse update touching rows `{0, 2}` of a
five-row parameter (the spec's own sparse scenario) never compares the
stale `prev_gradient` at the touched indices with the incoming values:
the code's `p - gradient.values` subtracts the two value rows from the
full five-row `prev_gradient`, a non-broadcastable shape pair, so the
step raises a shape error instead of performing the claimed update. -/
theorem sparse_step_shape_error :
    update_step_sparse cfgEx 0 false [(0 : Fin 5), (2 : Fin 5)] [(1 : ℝ), (2 : ℝ)] s5
      = none := rfl

/-- Claim C5: a sparse update whose index list covers 100% of the rows in
order, carrying the dense gradient's rows as its values, succeeds and
produces exactly the dense-path result: the same momentum, velocity,
previous gradient, AMSGrad maximum, and parameter. -/
theorem sparse_full_coverage_eq_dense (cfg : DGConfig) (iter : ℕ) (useWd : Bool)
    {n : ℕ} (g : Fin n → ℝ) (s : DGState n) :
    update_step_sparse cfg iter useWd (List.finRange n) ((List.finRange n).map g) s
      = some (update_step_dense cfg iter useWd g s) := by
  have hm : ∀ i : Fin n,
      scatter_add (fun i => s.m i + -s.m i * (1 - cfg.beta_1)) (List.finRange n)
        (((List.finRange n).map g).map fun x => x * (1 - cfg.beta_1)) i
      = s.m i + (g i - s.m i) * (1 - cfg.beta_1) := by
    intro i
    rw [List.map_map, scatter_add_finRange_map]
    simp only [Function.comp_apply]
    ring
  have hv : ∀ i : Fin n,
      scatter_add (fun i => s.v i + -s.v i * (1 - cfg.beta_2)) (List.finRange n)
        (((List.finRange n).map g).map fun x => x ^ 2 * (1 - cfg.beta_2) + cfg.epsilon) i
      = s.v i + ((g i) ^ 2 - s.v i) * (1 - cfg.beta_2) + cfg.epsilon := by
    intro i
    rw [List.map_map, scatter_add_finRange_map]
    simp only [Function.comp_apply]
    ring
  simp only [update_step_sparse, update_step_dense, sparse_dfc_finRange_map,
    Option.some_bind, List.length_map, List.length_finRange, eq_self_iff_true,
    if_true, Option.some.injEq]
  ext i
  · simp only [hm, hv, getD_map_finRange]
  · exact hm i
  · exact hv i
  · exact scatter_update_finRange_map s.p g i
  · simp only [hv]

/-- Claim C6: with AMSGrad enabled, every element of `velocity_hat` after
an update step is at least its value before the step — for the dense
branch, and for every sparse-branch invocation that succeeds — and the
dense final parameter update divides by the square root of the updated
`velocity_hat`, used in place of `velocity`. -/
theorem amsgrad_vhat_monotone (cfg : DGConfig) (hams : cfg.amsgrad = true)
    (iter : ℕ) (useWd : Bool) {n : ℕ} (g : Fin n → ℝ) (s : DGState n) (i : Fin n) :
    s.vhat i ≤ (update_step_dense cfg iter useWd g s).vhat i
    ∧ (update_step_dense cfg iter useWd g s).param i
        = (if useWd then s.param i - s.param i * cfg.weight_decay * cfg.learning_rate
           else s.param i)
          - (update_step_dense cfg iter useWd g s).m i
              * (cfg.learning_rate * Real.sqrt (1 - cfg.beta_2 ^ (iter + 1))
                  / (1 - cfg.beta_1 ^ (iter + 1)))
              / (dfcFun (s.p i - g i)
                  * Real.sqrt ((update_step_dense cfg iter useWd g s).vhat i))
    ∧ (∀ (idxs : List (Fin n)) (vals : List ℝ) (s' : DGState n),
        update_step_sparse cfg iter useWd idxs vals s = some s' →
          s.vhat i ≤ s'.vhat i) := by
  refine ⟨?_, ?_, ?_⟩
  · simp only [update_step_dense, hams, if_true]
    exact le_max_left _ _
  · simp only [update_step_dense, hams, if_true]
  · intro idxs vals s' hstep
    simp only [update_step_sparse] at hstep
    cases hdfc : sparse_dfc s.p vals with
    | none => rw [hdfc] at hstep; cases hstep
    | some dfcl =>
      rw [hdfc, Option.some_bind] at hstep
      by_cases hlen : dfcl.length = n
      · rw [if_pos hlen] at hstep
        have hrec := Option.some.inj hstep
        subst hrec
        simp only [hams, if_true]
        exact le_max_left _ _
      · rw [if_neg hlen] at hstep; cases hstep

/-- A concrete configuration with AMSGrad enabled, the other arguments at
their signature defaults. -/
noncomputable def cfgAms : DGConfig := ⟨0.001, 0.004, 0.9, 0.999, 1e-16, true⟩

/-- A concrete one-row per-parameter state: parameter at `1`, optimizer
slots at their zero initialization. -/
noncomputable def s1 : DGState 1 :=
  ⟨fun _ => 1, fun _ => 0, fun _ => 0, fun _ => 0, fun _ => 0⟩

/-- Witness for `amsgrad_vhat_monotone` at a concrete AMSGrad
configuration, state, and gradient. -/
theorem amsgrad_vhat_monotone_witness :
    s1.vhat 0 ≤ (update_step_dense cfgAms 0 false (fun _ => 1) s1).vhat 0 :=
  (amsgrad_vhat_monotone cfgAms rfl 0 false (fun _ => 1) s1 0).1

/-- Claim C9: weight decay is skipped exactly when the variable's identity
is in the explicit exclusion set or some configured name pattern occurs
inside the variable's name (substring search, not a full-string match);
and an excluded variable's parameter result carries no weight-decay
contribution at all: it is unchanged when the configured `weight_decay`
coefficient changes, for any gradient — in particular a zero gradient. -/
theorem weight_decay_exclusion (e : EngineState) (vid : ℕ) (vname : String)
    (cfg : DGConfig) (n : ℕ) :
    (use_weight_decay e vid vname = false
      ↔ vid ∈ e.exclude_vars
        ∨ ∃ pat ∈ e.exclude_names, reSearch pat.toList vname.toList = true)
    ∧ (use_weight_decay e vid vname = false →
        ∀ (iter : ℕ) (wd1 wd2 : ℝ) (g : Fin n → ℝ) (s : DGState n),
          (update_step_dense { cfg with weight_decay := wd1 } iter
              (use_weight_decay e vid vname) g s).param
          = (update_step_dense { cfg with weight_decay := wd2 } iter
              (use_weight_decay e vid vname) g s).param) := by
  constructor
  · constructor
    · intro hf
      unfold use_weight_decay at hf
      by_cases h1 : e.exclude_vars.contains vid = true
      · exact Or.inl (by simpa [List.elem_iff] using h1)
      · rw [if_neg h1] at hf
        by_cases h2 : e.exclude_names.any (fun pat => reSearch pat.toList vname.toList) = true
        · exact Or.inr (by simpa [List.any_eq_true] using h2)
        · rw [if_neg h2] at hf; cases hf
    · intro hor
      unfold use_weight_decay
      rcases hor with hmem | ⟨pat, hpat, hsearch⟩
      · rw [if_pos (by simpa [List.elem_iff] using hmem)]
      · by_cases h1 : e.exclude_vars.contains vid = true
        · rw [if_pos h1]
        · rw [if_neg h1,
            if_pos (by exact List.any_eq_true.mpr ⟨pat, hpat, hsearch⟩)]
  · intro hf iter wd1 wd2 g s
    rw [hf]
    rfl

/-- An unbuilt engine whose only exclusion configuration is the name
pattern `bias`. -/
def exclEngineEx : EngineState := ⟨false, [], [], [], [], [], ["bias"]⟩

/-- Witness for `weight_decay_exclusion`: the name `conv1/bias:0` merely
contains the pattern `bias` as a proper substring, yet the variable is
excluded, and its parameter update is independent of the weight-decay
coefficient. -/
theorem weight_decay_exclusion_witness :
    use_weight_decay exclEngineEx 42 "conv1/bias:0" = false
    ∧ (update_step_dense { cfgEx with weight_decay := 1 } 0
        (use_weight_decay exclEngineEx 42 "conv1/bias:0") (fun _ : Fin 1 => 0) s1).param
      = (update_step_dense { cfgEx with weight_decay := 2 } 0
        (use_weight_decay exclEngineEx 42 "conv1/bias:0") (fun _ : Fin 1 => 0) s1).param := by
  have h : use_weight_decay exclEngineEx 42 "conv1/bias:0" = false := by decide
  exact ⟨h,
    (weight_decay_exclusion exclEngineEx 42 "conv1/bias:0" cfgEx 1).2 h 0 1 2 _ s1⟩
